import Mathlib

/-!
Verification of the Partition-Compute-Accumulate (PCA) compute core of the
coatyio/dda-examples repository, as a shallow embedding in Lean 4.

Source files embedded here:
- `compute/components/common.go` (roles, announcements, coordinator loop,
  the free-worker estimate `workerFreeState.Free`),
- the tracker (`Tracker.TryJoin`, `Tracker.Leave`, `Tracker.Count`),
- the worker (`Worker.handlePartialComputation`, `Worker.trackCoordinators`),
- the `fac` computation (`Partition`, `PartialCompute`, `Accumulate`),
- the coordinator CLI glue (`cmd/coordinator` main).

Go byte slices (`BinaryData`) are modeled as byte strings; where the source
distinguishes a nil slice from an empty one (worker outputs), an
`Option BinaryData` is used, `none` standing for the nil slice.
-/

/-- Go type `computation.BinaryData` (a byte slice), modeled as a string of
bytes. All payloads of the compute example are UTF-8 text. -/
abbrev BinaryData := String

/-- Go type `components.ComponentRole` with its three constants
`RoleUndefined`, `RoleCoordinator`, `RoleWorker` (common.go). -/
inductive ComponentRole where
  | RoleUndefined
  | RoleCoordinator
  | RoleWorker
deriving DecidableEq, Repr

/-- Go method `ComponentRole.String` (common.go): human-readable role label. -/
def ComponentRole.roleString : ComponentRole → String
  | .RoleCoordinator => "coordinator"
  | .RoleWorker => "worker"
  | .RoleUndefined => "undefined"

/-- Go function `components.ParseComponentRole` (common.go): parses a role
label; every string other than "coordinator" and "worker" yields
`RoleUndefined`. -/
def ParseComponentRole (r : String) : ComponentRole :=
  if r = "coordinator" then .RoleCoordinator
  else if r = "worker" then .RoleWorker
  else .RoleUndefined

/-- Go struct `components.Tracker` (tracker.go): the two role-indexed id sets.
The Go maps `coordinators` and `workers` are modeled as duplicate-free lists
whose membership is the map's key set. -/
structure Tracker where
  coordinators : List String
  workers : List String
deriving DecidableEq, Repr

/-- The shared body of `Tracker.TryJoin` once the Go `switch` has selected a
role set: look the id up, and if absent insert it, reporting novelty. -/
def tryJoinList (l : List String) (id : String) : Bool × List String :=
  if id ∈ l then (false, l) else (true, id :: l)

/-- The shared body of `Tracker.Leave` once the Go `switch` has selected a
role set: `delete` of the key, a no-op when the id is absent. -/
def leaveList (l : List String) (id : String) : List String :=
  l.filter (fun x => decide (x ≠ id))

/-- Go method `Tracker.TryJoin` (tracker.go). For `RoleUndefined` the Go
`switch` leaves the local `set` variable nil; the lookup on the nil map
misses and the subsequent insertion `set[id] = struct{}{}` panics — modeled
as `none`. For the two real roles the result is the reported novelty and
the updated tracker. -/
def Tracker.TryJoin (t : Tracker) (role : ComponentRole) (id : String) :
    Option (Bool × Tracker) :=
  match role with
  | .RoleCoordinator =>
      let p := tryJoinList t.coordinators id
      some (p.1, { t with coordinators := p.2 })
  | .RoleWorker =>
      let p := tryJoinList t.workers id
      some (p.1, { t with workers := p.2 })
  | .RoleUndefined => none

/-- Go method `Tracker.Leave` (tracker.go). The `switch` has no case for
`RoleUndefined`, so leaving with an undefined role changes nothing. -/
def Tracker.Leave (t : Tracker) (role : ComponentRole) (id : String) : Tracker :=
  match role with
  | .RoleCoordinator => { t with coordinators := leaveList t.coordinators id }
  | .RoleWorker => { t with workers := leaveList t.workers id }
  | .RoleUndefined => t

/-- Go method `Tracker.Count` (tracker.go): the pair
(number of coordinators, number of workers). -/
def Tracker.Count (t : Tracker) : Nat × Nat :=
  (t.coordinators.length, t.workers.length)

/-- Observer: whether `id` is a member of the role's set. `RoleUndefined`
indexes no set. -/
def Tracker.memRole (t : Tracker) (role : ComponentRole) (id : String) : Bool :=
  match role with
  | .RoleCoordinator => decide (id ∈ t.coordinators)
  | .RoleWorker => decide (id ∈ t.workers)
  | .RoleUndefined => false

/-- One call made against a tracker: either `TryJoin` or `Leave`. -/
inductive TrackerOp where
  | join
  | leave
deriving DecidableEq, Repr

/-- A recorded tracker call with its role and id arguments. -/
structure TrackerCall where
  op : TrackerOp
  role : ComponentRole
  id : String
deriving DecidableEq, Repr

/-- Apply one recorded call to a tracker. A panicking `TryJoin` (undefined
role) is never exercised by the theorems, which restrict calls to the two
real roles; it is mapped to the unchanged tracker to keep the fold total. -/
def applyCall (t : Tracker) (c : TrackerCall) : Tracker :=
  match c.op with
  | .join =>
      match t.TryJoin c.role c.id with
      | some p => p.2
      | none => t
  | .leave => t.Leave c.role c.id

/-- Apply a sequence of recorded calls, oldest first. -/
def applyCalls (t : Tracker) (cs : List TrackerCall) : Tracker :=
  cs.foldl applyCall t

/-- Go `Coordinator.announce` response handler (common.go line 248): each
announcement reply is fed to
`tracker.TryJoin(ParseComponentRole(ar.Context), string(ar.Data))`.
`none` models the panic of `TryJoin` on an undefined role. -/
def handleAnnounceResponse (t : Tracker) (ctx dat : String) : Option Tracker :=
  (t.TryJoin (ParseComponentRole ctx) dat).map (fun p => p.2)

/-- Go struct `components.workerFreeState` (common.go): the parameters of the
latest free-worker check. All three Go ints are non-negative at every use
site (two map sizes and the in-flight counter). -/
structure workerFreeState where
  cc : Nat
  cw : Nat
  pcProc : Nat
deriving DecidableEq, Repr

/-- Go method `workerFreeState.Free` (common.go lines 520-525): the estimate
of workers free for the next partial computation, `cw/cc - pcProc` in
integer arithmetic, and 0 when there is no coordinator. -/
def workerFreeState.Free (s : workerFreeState) : Int :=
  if s.cc = 0 then 0 else ((s.cw / s.cc : Nat) : Int) - (s.pcProc : Int)

/-- Go struct `components.partialResult` (common.go): what a helper goroutine
sends on `pcCompleted`. `resubmit = true` stands for a non-nil error (the
cause of resubmission); in that case `data` holds the original input bytes,
otherwise the worker's output bytes. -/
structure PartialResult where
  data : BinaryData
  workerId : String
  resubmit : Bool
deriving DecidableEq, Repr

/-- The environment's outcome of one published partial-compute action, as
seen by `Coordinator.performPartialComputation`: the gRPC call or stream
ends canceled, fails (deadline exceeded or transport error), or delivers a
single correlated action result. -/
inductive PcOutcome where
  | canceled
  | failed
  | answered (data : BinaryData) (workerId : String)
deriving DecidableEq, Repr

/-- Go method `Coordinator.performPartialComputation` (common.go lines
450-488), reduced to its completion signal: a canceled call or stream sends
nothing on `pcCompleted` (`none`); a deadline/transport failure sends the
original input with the resubmit flag; a received result sends its data and
the worker id carried in the result context. -/
def performPartialComputation (input : BinaryData) (oc : PcOutcome) :
    Option PartialResult :=
  match oc with
  | .canceled => none
  | .failed => some { data := input, workerId := "", resubmit := true }
  | .answered d w => some { data := d, workerId := w, resubmit := false }

/-- The capacity of the resubmission queue,
`pcResubmit := make(chan cmpt.BinaryData, 100)` (common.go line 353). -/
def resubmitCapacity : Nat := 100

/-- Whether the `partitionAccumulate` for-select loop is still iterating or
has been left via `break loop`. -/
inductive LoopPhase where
  | running
  | exited
deriving DecidableEq, Repr

/-- State of the coordinator's `partitionAccumulate` loop (common.go lines
344-445) between iterations.

`inp` is the partition input channel: `some l` holds the not yet received
inputs (receiving on the empty list observes the channel close), `none` is
the Go `in = nil` state after the close has been observed. `inFlight` is
the multiset of inputs of dispatched, not yet completed partial
computations; the Go counter `pcProc` is its size. `acc` records the
outputs passed to `cm.Accumulate`, `finCount` the number of
`cm.Finalize` calls, and `failMsgCount` the number of one-line failure
messages written to the request's output sink. -/
structure LoopState where
  inp : Option (List BinaryData)
  inFlight : List BinaryData
  pcResubmit : List BinaryData
  acc : List BinaryData
  failFast : Bool
  phase : LoopPhase
  finCount : Nat
  failMsgCount : Nat
deriving DecidableEq, Repr

/-- The code run after `break loop` (common.go lines 440-444): on fail-fast
write the one-line failure message, otherwise call `cm.Finalize(start)`. -/
def LoopState.exitLoop (s : LoopState) : LoopState :=
  if s.failFast then
    { s with phase := .exited, failMsgCount := s.failMsgCount + 1 }
  else
    { s with phase := .exited, finCount := s.finCount + 1 }

/-- One iteration of the for-select loop, driven by the environment: the
tracker counts `cc`/`cw` observed by `tracker.Count()` at the top of the
iteration, and which ready select case fires — cancellation, a receive
from the partition input channel, a receive from the resubmit queue, or the
completion of the in-flight partial computation for `input` with transport
outcome `oc`. -/
inductive LoopEvent where
  | cancel (cc cw : Nat)
  | recvInput (cc cw : Nat)
  | recvResubmit (cc cw : Nat)
  | complete (cc cw : Nat) (input : BinaryData) (oc : PcOutcome)
deriving DecidableEq, Repr

/-- The coordinator count observed at the event's iteration. -/
def eventCC : LoopEvent → Nat
  | .cancel cc _ => cc
  | .recvInput cc _ => cc
  | .recvResubmit cc _ => cc
  | .complete cc _ _ _ => cc

/-- The worker count observed at the event's iteration. -/
def eventCW : LoopEvent → Nat
  | .cancel _ cw => cw
  | .recvInput _ cw => cw
  | .recvResubmit _ cw => cw
  | .complete _ cw _ _ => cw

/-- One iteration of `partitionAccumulate`'s loop body (common.go lines
374-438). `none` means the event cannot occur in that state: the loop has
exited, the free-worker estimate blocks the input and resubmit channels,
the respective channel has nothing to deliver, or the named completion is
not in flight (a canceled helper signals nothing).

The select cases follow the source: a dispatch appends the input to the
in-flight multiset (`pcProc++` plus `go performPartialComputation`);
observing the input-channel close sets `inp := none` and breaks the loop
when nothing is in flight and the resubmit queue is empty; a completion
removes the in-flight entry (`pcProc--`) and then either enqueues the
original input for resubmission (fail-fast on a full queue), fails fast on
empty result data, or accumulates and breaks the loop when everything is
drained. -/
def LoopState.step (s : LoopState) (e : LoopEvent) : Option LoopState :=
  match s.phase with
  | .exited => none
  | .running =>
    match e with
    | .cancel _ _ =>
        some (LoopState.exitLoop { s with failFast := true })
    | .recvInput cc cw =>
        if 0 < workerFreeState.Free ⟨cc, cw, s.inFlight.length⟩ then
          match s.inp with
          | none => none
          | some [] =>
              let s' := { s with inp := none }
              if s'.inFlight.length = 0 ∧ s'.pcResubmit = [] then
                some s'.exitLoop
              else
                some s'
          | some (x :: rest) =>
              some { s with inp := some rest, inFlight := s.inFlight ++ [x] }
        else none
    | .recvResubmit cc cw =>
        if 0 < workerFreeState.Free ⟨cc, cw, s.inFlight.length⟩ then
          match s.pcResubmit with
          | [] => none
          | x :: rest =>
              some { s with pcResubmit := rest, inFlight := s.inFlight ++ [x] }
        else none
    | .complete _ _ input oc =>
        if input ∈ s.inFlight then
          match performPartialComputation input oc with
          | none => none
          | some res =>
              let s' := { s with inFlight := s.inFlight.erase input }
              if res.resubmit then
                if s'.pcResubmit.length < resubmitCapacity then
                  some { s' with pcResubmit := s'.pcResubmit ++ [res.data] }
                else
                  some (LoopState.exitLoop { s' with failFast := true })
              else if res.data.length = 0 then
                some (LoopState.exitLoop { s' with failFast := true })
              else
                let s'' := { s' with acc := s'.acc ++ [res.data] }
                if s''.inp = none ∧ s''.inFlight.length = 0 ∧ s''.pcResubmit = [] then
                  some s''.exitLoop
                else
                  some s''
        else none

/-- Run the loop over a finite sequence of iteration events. `none` means
some event in the sequence could not occur. -/
def LoopState.run (s : LoopState) : List LoopEvent → Option LoopState
  | [] => some s
  | e :: es =>
      match s.step e with
      | none => none
      | some s' => s'.run es

/-- The loop state right after `Partition` returned the input channel that
will deliver `inputs`: nothing in flight, empty resubmit queue, nothing
accumulated, no fail-fast. -/
def LoopState.init (inputs : List BinaryData) : LoopState :=
  { inp := some inputs, inFlight := [], pcResubmit := [], acc := [],
    failFast := false, phase := .running, finCount := 0, failMsgCount := 0 }

/-- Invariant of all reachable loop states, tying the fail-fast flag to the
finalization and failure-message effects performed at loop exit. -/
def LoopInv (s : LoopState) : Prop :=
  (s.phase = .running → s.failFast = false ∧ s.finCount = 0 ∧ s.failMsgCount = 0) ∧
  (s.phase = .exited →
    (s.failFast = false →
      s.finCount = 1 ∧ s.failMsgCount = 0 ∧
      s.inp = none ∧ s.inFlight = [] ∧ s.pcResubmit = []) ∧
    (s.failFast = true → s.finCount = 0 ∧ s.failMsgCount = 1))

/-- Claim C2 as stated: at every loop iteration, the number of in-flight
partial computations at the start of the iteration is bounded by
`max 1 (W / C)` computed from the tracker counts observed at that same
iteration. -/
def rateLimitClaim : Prop :=
  ∀ (inputs : List BinaryData) (pre : List LoopEvent) (e : LoopEvent)
    (s : LoopState),
    LoopState.run (LoopState.init inputs) pre = some s →
    (s.step e).isSome = true →
    s.inFlight.length ≤ max 1 (eventCW e / eventCC e)

/-- A DDA action as consumed by the compute core: `typ` is the action type,
`id` carries the sender id for announcements and the computation name for
partial-compute actions, `source` carries the sender role for announcements
and the coordinator id for partial-compute actions, `params` the payload. -/
structure DdaAction where
  typ : String
  id : String
  source : String
  params : BinaryData
deriving DecidableEq, Repr

/-- A correlated action result: `context` conveys a role or the emitting
worker's id, `data` the payload. The sequence number is unused by the
compute core. -/
structure ActionResult where
  context : String
  data : BinaryData
deriving DecidableEq, Repr

/-- The worker-side capability of a registered computation: its
`PartialCompute` function. A Go nil output slice is `none`; a non-nil
empty slice is `some ""`. -/
structure WorkerComputation where
  PartialCompute : BinaryData → Option BinaryData

/-- Go method `Worker.handlePartialComputation` (worker component): look the
computation up by the action's `id`; if unregistered, silently drop; invoke
`PartialCompute` on the action params; publish nothing on a nil output and
otherwise exactly one action result with context the worker's id and data
the output. The returned list is the sequence of published results. -/
def Worker.handlePartialComputation (reg : String → Option WorkerComputation)
    (workerId : String) (ac : DdaAction) : List ActionResult :=
  match reg ac.id with
  | none => []
  | some cm =>
      match cm.PartialCompute ac.params with
      | none => []
      | some output => [{ context := workerId, data := output }]

/-- Go method `Worker.trackCoordinators` announcement handler (worker
component): on params "HELLO" reply once with context "worker" and data the
worker's own id; on any other params (in particular "BYE") do nothing. The
returned list is the sequence of published action results. -/
def Worker.handleAnnounce (selfId : String) (ac : DdaAction) : List ActionResult :=
  if ac.params = "HELLO" then
    [{ context := ComponentRole.RoleWorker.roleString, data := selfId }]
  else []

/-- The worker's announcement handling paired with an ambient tracker state.
The Go worker holds no tracker and its announcement handler performs no
tracker operation, so any tracker state passes through unchanged; this
wrapper makes that observable for comparison with the specification. -/
def Worker.handleAnnounceT (selfId : String) (t : Tracker) (ac : DdaAction) :
    Tracker × List ActionResult :=
  (t, Worker.handleAnnounce selfId ac)

/-- Go method `Coordinator.trackCoordinators` announcement handler (common.go
lines 256-294): on params "HELLO" from a different id, track the sender via
`TryJoin(ParseComponentRole(source), id)` and reply once with context
"coordinator" and data the coordinator's own id; the echo of the own
announcement is skipped with no reply; on any other params perform
`Leave(ParseComponentRole(source), id)` with no reply. `none` models the
panic of `TryJoin` on an undefined role. -/
def Coordinator.handleAnnounce (selfId : String) (t : Tracker) (ac : DdaAction) :
    Option (Tracker × List ActionResult) :=
  if ac.params = "HELLO" then
    if ac.id ≠ selfId then
      match t.TryJoin (ParseComponentRole ac.source) ac.id with
      | none => none
      | some p =>
          some (p.2, [{ context := ComponentRole.RoleCoordinator.roleString,
                        data := selfId }])
    else
      some (t, [])
  else
    some (t.Leave (ParseComponentRole ac.source) ac.id, [])

/-- The decimal digit characters used by Go's `strconv` formatting. -/
def digitChar (d : Nat) : Char :=
  match d with
  | 0 => '0' | 1 => '1' | 2 => '2' | 3 => '3' | 4 => '4'
  | 5 => '5' | 6 => '6' | 7 => '7' | 8 => '8' | 9 => '9'
  | _ => '*'

/-- The numeric value of a decimal digit character, `none` for any other
character. -/
def charDigit (c : Char) : Option Nat :=
  if 48 ≤ c.toNat ∧ c.toNat ≤ 57 then some (c.toNat - 48) else none

/-- The little-endian decimal digits of `n`, computed with enough fuel;
`decDigitsRev n n` are the digits of `n` (least significant first). -/
def decDigitsRev (fuel n : Nat) : List Nat :=
  match fuel with
  | 0 => []
  | fuel + 1 => if n = 0 then [] else n % 10 :: decDigitsRev fuel (n / 10)

/-- Go function `strconv.FormatUint(n, 10)`: the decimal representation of
`n` without leading zeros, and "0" for zero. -/
def formatUint (n : Nat) : String :=
  if n = 0 then "0" else ((decDigitsRev n n).reverse.map digitChar).asString

/-- The digit-accumulation loop of Go's `strconv.ParseUint` in base 10:
fails on the first non-digit character. -/
def parseUintCore (cs : List Char) (acc : Nat) : Option Nat :=
  match cs with
  | [] => some acc
  | c :: rest =>
      match charDigit c with
      | none => none
      | some v => parseUintCore rest (acc * 10 + v)

/-- Go function `strconv.ParseUint(s, 10, 0)` on a 64-bit platform: fails on
an empty string, on any non-digit character (no signs are accepted), and on
values outside the 64-bit unsigned range. -/
def parseUint64 (s : String) : Option Nat :=
  if s.data = [] then none
  else
    match parseUintCore s.data 0 with
    | none => none
    | some v => if v < 2 ^ 64 then some v else none

/-- Go conversion `int64(n)` of a `uint64` value `n`: two's-complement
wraparound for values at or above `2^63`. -/
def int64ofUint64 (n : Nat) : Int :=
  if n < 2 ^ 63 then (n : Int) else (n : Int) - 2 ^ 64

/-- The little-endian decimal value of a digit list, used to specify the
format/parse roundtrip. -/
def valOfDigitsRev : List Nat → Nat
  | [] => 0
  | d :: ds => d + 10 * valOfDigitsRev ds

/-- Go method `FacComputation.Partition` (fac computation): requires exactly
one argument parsing as a 64-bit unsigned decimal `n` and emits the decimal
strings of 2, …, n in order (none for `n ≤ 1`); any other argument list is
an error (`none`). -/
def FacComputation.Partition (args : List String) : Option (List BinaryData) :=
  match args with
  | [a] =>
      match parseUint64 a with
      | none => none
      | some n => some ((List.range' 2 (n - 1)).map formatUint)
  | _ => none

/-- Go method `FacComputation.PartialCompute` (fac computation): the identity
function on the input bytes (after a demonstration delay). -/
def FacComputation.PartialCompute (input : BinaryData) : BinaryData :=
  input

/-- Go method `FacComputation.Accumulate` (fac computation): parse the output
as a 64-bit unsigned decimal and multiply the running big-integer product by
its `int64` conversion; an undecodable output is skipped with a message and
leaves the product unchanged. -/
def FacComputation.Accumulate (result : Int) (output : BinaryData) : Int :=
  match parseUint64 output with
  | none => result
  | some k => result * int64ofUint64 k

/-- The outcome of one coordinator run as far as the CLI glue could observe
it: finalized successfully, rejected the arguments (unknown computation or
`Partition` error), or failed fast. -/
inductive CoordinatorOutcome where
  | success
  | argumentError
  | failFast
deriving DecidableEq, Repr

/-- Exit code of the coordinator process (cmd/coordinator main): with `-h`
or without a computation argument it prints usage and exits 0; otherwise it
starts the coordinator, waits on the completion channel and returns from
`main`, which is exit code 0 — the outcome of the run is never inspected. -/
def coordinatorMainExitCode (help : Bool) (args : List String)
    (outcome : CoordinatorOutcome) : Nat :=
  if help ∨ args.headD "" = "" then 0
  else
    match outcome with
    | _ => 0

/-- The membership predicted from the last recorded call for a given role and
id: `true`/`false` after a final `TryJoin`/`Leave`, and the initial
membership when no call touched the pair. -/
def lastOpMem (t0 : Tracker) (role : ComponentRole) (id : String)
    (calls : List TrackerCall) : Bool :=
  match (calls.filter (fun c => decide (c.role = role ∧ c.id = id))).getLast? with
  | some c => decide (c.op = .join)
  | none => t0.memRole role id

/-- Claim C1: the free-worker estimate is the integer quotient `W / C` minus
the in-flight count when `C > 0`, and 0 when `C = 0`. -/
theorem C1_free_estimate (s : workerFreeState) :
    (s.cc = 0 → s.Free = 0) ∧
    (0 < s.cc → s.Free = (s.cw : Int) / (s.cc : Int) - (s.pcProc : Int)) := by
  constructor
  · intro h
    simp [workerFreeState.Free, h]
  · intro h
    have hne : s.cc ≠ 0 := Nat.pos_iff_ne_zero.mp h
    simp [workerFreeState.Free, hne, Int.natCast_div]

theorem C1_free_estimate_witness :
    (0 < 3 ∧ workerFreeState.Free ⟨3, 7, 1⟩ = (7 : Int) / (3 : Int) - (1 : Int)) ∧
    ((0 : Nat) = 0 ∧ workerFreeState.Free ⟨0, 7, 1⟩ = 0) :=
  ⟨⟨by decide, by simpa using (C1_free_estimate ⟨3, 7, 1⟩).2 (by decide)⟩,
   ⟨rfl, (C1_free_estimate ⟨0, 7, 1⟩).1 rfl⟩⟩

/-- Claim C5: a worker drops partial-compute actions for unregistered
computations, publishes nothing on a nil output, and otherwise publishes
exactly one action result with context the worker's id and data the
output. -/
theorem C5_worker_partial_compute (reg : String → Option WorkerComputation)
    (workerId : String) (ac : DdaAction) :
    (reg ac.id = none → Worker.handlePartialComputation reg workerId ac = []) ∧
    (∀ cm, reg ac.id = some cm →
      (cm.PartialCompute ac.params = none →
        Worker.handlePartialComputation reg workerId ac = []) ∧
      (∀ out, cm.PartialCompute ac.params = some out →
        Worker.handlePartialComputation reg workerId ac =
          [{ context := workerId, data := out }])) := by
  refine ⟨fun h => ?_, fun cm hcm => ⟨fun h => ?_, fun out h => ?_⟩⟩ <;>
    simp [Worker.handlePartialComputation, *]

theorem C5_worker_partial_compute_witness :
    Worker.handlePartialComputation
      (fun n => if n = "fac" then some ⟨fun s => some s⟩ else none) "w1"
      { typ := "ddaexmpls.compute.pcomp", id := "nosuch", source := "c1",
        params := "7" } = [] ∧
    Worker.handlePartialComputation
      (fun n => if n = "fac" then some ⟨fun s => some s⟩ else none) "w1"
      { typ := "ddaexmpls.compute.pcomp", id := "fac", source := "c1",
        params := "7" } = [{ context := "w1", data := "7" }] :=
  ⟨(C5_worker_partial_compute _ "w1" _).1 rfl,
   ((C5_worker_partial_compute _ "w1" _).2 ⟨fun s => some s⟩ rfl).2 "7" rfl⟩

/-- Claim C10: `TryJoin` with an undefined role panics (nil-map write),
`ParseComponentRole` maps every label other than "coordinator" and "worker"
to the undefined role, so an announcement reply with any other context
crashes the coordinator's response handler, while `Leave` with an undefined
role is a harmless no-op. -/
theorem C10_undefined_role_panics :
    (∀ (t : Tracker) (id : String), t.TryJoin .RoleUndefined id = none) ∧
    (∀ s : String, s ≠ "coordinator" → s ≠ "worker" →
      ParseComponentRole s = .RoleUndefined) ∧
    (∀ (t : Tracker) (ctx dat : String), ctx ≠ "coordinator" → ctx ≠ "worker" →
      handleAnnounceResponse t ctx dat = none) ∧
    (∀ (t : Tracker) (id : String), t.Leave .RoleUndefined id = t) := by
  refine ⟨fun t id => rfl, fun s h1 h2 => ?_, fun t ctx dat h1 h2 => ?_,
    fun t id => rfl⟩
  · simp [ParseComponentRole, h1, h2]
  · simp [handleAnnounceResponse, ParseComponentRole, h1, h2, Tracker.TryJoin]

theorem C10_undefined_role_panics_witness :
    Tracker.TryJoin ⟨["c1"], ["w1"]⟩ .RoleUndefined "x" = none ∧
    ParseComponentRole "boss" = .RoleUndefined ∧
    handleAnnounceResponse ⟨["c1"], ["w1"]⟩ "boss" "x" = none ∧
    Tracker.Leave ⟨["c1"], ["w1"]⟩ .RoleUndefined "x" = ⟨["c1"], ["w1"]⟩ :=
  ⟨C10_undefined_role_panics.1 ⟨["c1"], ["w1"]⟩ "x",
   C10_undefined_role_panics.2.1 "boss" (by decide) (by decide),
   C10_undefined_role_panics.2.2.1 ⟨["c1"], ["w1"]⟩ "boss" "x" (by decide)
     (by decide),
   C10_undefined_role_panics.2.2.2 ⟨["c1"], ["w1"]⟩ "x"⟩

/-- Claim C9 fails on the code: on an argument error (here: an unknown
computation name) the coordinator process exits with code 0, not with a
non-zero code — `main` never inspects the outcome of the run. -/
theorem C9_counterexample :
    ¬ (coordinatorMainExitCode false ["nosuch"] .argumentError ≠ 0) := by
  decide

/-- Claim C9 amended: the coordinator process exits with code 0 on success
and when help is shown, and also exits with code 0 on an argument error
(unknown computation name or Partition rejection) and on computation
failure; the exit code never distinguishes outcomes. -/
theorem C9_amended (help : Bool) (args : List String)
    (oc : CoordinatorOutcome) : coordinatorMainExitCode help args oc = 0 := by
  cases oc <;> unfold coordinatorMainExitCode <;> split <;> rfl

/-- For the two real roles, `TryJoin` does not panic. -/
theorem TryJoin_defined (t : Tracker) (role : ComponentRole) (id : String)
    (h : role ≠ .RoleUndefined) : ∃ b t', t.TryJoin role id = some (b, t') := by
  cases role with
  | RoleUndefined => exact absurd rfl h
  | RoleCoordinator => exact ⟨_, _, rfl⟩
  | RoleWorker => exact ⟨_, _, rfl⟩

/-- Claim C6 fails on the code: a worker performs no tracker operation on a
"BYE" announcement (it has no tracker at all), so its state after this
concrete leave announcement is not the claimed `Leave` result. -/
theorem C6_counterexample :
    ¬ ((Worker.handleAnnounceT "w1" ⟨["c1"], []⟩
        { typ := "ddaexmpls.compute.announceCoordinator", id := "c1",
          source := "coordinator", params := "BYE" }).1 =
      Tracker.Leave ⟨["c1"], []⟩ (ParseComponentRole "coordinator") "c1") := by
  decide

/-- Claim C6 amended: a coordinator whose id differs from the announcement's
id tracks the sender and replies exactly once with its role and id on
"HELLO", ignores its own echo without replying, and performs `Leave` with
no reply on "BYE"; a worker replies exactly once with context "worker" and
its own id on "HELLO" and does nothing on "BYE" — workers maintain no
tracker and perform no `TryJoin`/`Leave`. -/
theorem C6_amended :
    (∀ (selfId : String) (t : Tracker) (ac : DdaAction),
      ParseComponentRole ac.source ≠ .RoleUndefined →
      (ac.params = "HELLO" → ac.id ≠ selfId →
        ∃ b t', t.TryJoin (ParseComponentRole ac.source) ac.id = some (b, t') ∧
          Coordinator.handleAnnounce selfId t ac =
            some (t', [{ context := "coordinator", data := selfId }])) ∧
      (ac.params = "HELLO" → ac.id = selfId →
        Coordinator.handleAnnounce selfId t ac = some (t, [])) ∧
      (ac.params = "BYE" →
        Coordinator.handleAnnounce selfId t ac =
          some (t.Leave (ParseComponentRole ac.source) ac.id, []))) ∧
    (∀ (selfId : String) (t : Tracker) (ac : DdaAction),
      (ac.params = "HELLO" →
        Worker.handleAnnounceT selfId t ac =
          (t, [{ context := "worker", data := selfId }])) ∧
      (ac.params = "BYE" → Worker.handleAnnounceT selfId t ac = (t, []))) := by
  constructor
  · intro selfId t ac hrole
    refine ⟨fun hp hid => ?_, fun hp hid => ?_, fun hp => ?_⟩
    · obtain ⟨b, t', hj⟩ := TryJoin_defined t (ParseComponentRole ac.source)
        ac.id hrole
      exact ⟨b, t', hj, by
        simp [Coordinator.handleAnnounce, hp, hid, hj,
          ComponentRole.roleString]⟩
    · simp [Coordinator.handleAnnounce, hp, hid]
    · simp [Coordinator.handleAnnounce, hp]
  · intro selfId t ac
    constructor
    · intro hp
      simp [Worker.handleAnnounceT, Worker.handleAnnounce, hp,
        ComponentRole.roleString]
    · intro hp
      simp [Worker.handleAnnounceT, Worker.handleAnnounce, hp]

theorem C6_amended_witness :
    (∃ b t', Tracker.TryJoin ⟨["c2"], []⟩ (ParseComponentRole "coordinator")
        "c1" = some (b, t') ∧
      Coordinator.handleAnnounce "c2" ⟨["c2"], []⟩
        { typ := "ddaexmpls.compute.announceCoordinator", id := "c1",
          source := "coordinator", params := "HELLO" } =
        some (t', [{ context := "coordinator", data := "c2" }])) ∧
    Worker.handleAnnounceT "w1" ⟨["c2"], []⟩
      { typ := "ddaexmpls.compute.announceCoordinator", id := "c1",
        source := "coordinator", params := "HELLO" } =
      (⟨["c2"], []⟩, [{ context := "worker", data := "w1" }]) ∧
    Worker.handleAnnounceT "w1" ⟨["c2"], []⟩
      { typ := "ddaexmpls.compute.announceCoordinator", id := "c1",
        source := "coordinator", params := "BYE" } = (⟨["c2"], []⟩, []) :=
  ⟨(C6_amended.1 "c2" ⟨["c2"], []⟩
      { typ := "ddaexmpls.compute.announceCoordinator", id := "c1",
        source := "coordinator", params := "HELLO" } (by decide)).1 rfl
      (by decide),
   (C6_amended.2 "w1" ⟨["c2"], []⟩
      { typ := "ddaexmpls.compute.announceCoordinator", id := "c1",
        source := "coordinator", params := "HELLO" }).1 rfl,
   (C6_amended.2 "w1" ⟨["c2"], []⟩
      { typ := "ddaexmpls.compute.announceCoordinator", id := "c1",
        source := "coordinator", params := "BYE" }).2 rfl⟩

/-- Membership after the shared join body: the id is added, everything else
is kept. -/
theorem tryJoinList_mem (l : List String) (id x : String) :
    x ∈ (tryJoinList l id).2 ↔ x = id ∨ x ∈ l := by
  by_cases h : id ∈ l
  · simp only [tryJoinList, if_pos h]
    constructor
    · exact Or.inr
    · rintro (rfl | hx)
      · exact h
      · exact hx
  · simp [tryJoinList, h]

/-- The reported novelty of the shared join body. -/
theorem tryJoinList_fst (l : List String) (id : String) :
    (tryJoinList l id).1 = true ↔ id ∉ l := by
  by_cases h : id ∈ l <;> simp [tryJoinList, h]

/-- Membership after the shared leave body: the id is removed, everything
else is kept. -/
theorem leaveList_mem (l : List String) (id x : String) :
    x ∈ leaveList l id ↔ x ∈ l ∧ x ≠ id := by
  simp [leaveList]

/-- Leaving an absent id does not change the set. -/
theorem leaveList_of_not_mem (l : List String) (id : String) (h : id ∉ l) :
    leaveList l id = l := by
  refine List.filter_eq_self.mpr (fun a ha => ?_)
  simp only [decide_eq_true_eq]
  rintro rfl
  exact h ha

/-- Full specification of `TryJoin` for a real role: it succeeds, reports
novelty, leaves the id a member, and a repeated join reports `false` and
changes nothing. -/
theorem tryJoin_spec (t : Tracker) (role : ComponentRole) (id : String)
    (h : role ≠ .RoleUndefined) :
    ∃ b t', t.TryJoin role id = some (b, t') ∧
      (b = true ↔ t.memRole role id = false) ∧
      t'.memRole role id = true ∧
      t'.TryJoin role id = some (false, t') := by
  cases role with
  | RoleUndefined => exact absurd rfl h
  | RoleCoordinator =>
      by_cases hm : id ∈ t.coordinators
      · exact ⟨false, t, by simp [Tracker.TryJoin, tryJoinList, hm],
          by simp [Tracker.memRole, hm],
          by simp [Tracker.memRole, hm],
          by simp [Tracker.TryJoin, tryJoinList, hm]⟩
      · exact ⟨true, { t with coordinators := id :: t.coordinators },
          by simp [Tracker.TryJoin, tryJoinList, hm],
          by simp [Tracker.memRole, hm],
          by simp [Tracker.memRole],
          by simp [Tracker.TryJoin, tryJoinList]⟩
  | RoleWorker =>
      by_cases hm : id ∈ t.workers
      · exact ⟨false, t, by simp [Tracker.TryJoin, tryJoinList, hm],
          by simp [Tracker.memRole, hm],
          by simp [Tracker.memRole, hm],
          by simp [Tracker.TryJoin, tryJoinList, hm]⟩
      · exact ⟨true, { t with workers := id :: t.workers },
          by simp [Tracker.TryJoin, tryJoinList, hm],
          by simp [Tracker.memRole, hm],
          by simp [Tracker.memRole],
          by simp [Tracker.TryJoin, tryJoinList]⟩

/-- Full specification of `Leave`: the id is no longer a member afterwards,
and leaving an absent id changes nothing. -/
theorem leave_spec (t : Tracker) (role : ComponentRole) (id : String) :
    (t.Leave role id).memRole role id = false ∧
    (t.memRole role id = false → t.Leave role id = t) := by
  cases role with
  | RoleUndefined => exact ⟨rfl, fun _ => rfl⟩
  | RoleCoordinator =>
      refine ⟨by simp [Tracker.Leave, Tracker.memRole, leaveList_mem], ?_⟩
      intro h
      simp only [Tracker.memRole, decide_eq_false_iff_not] at h
      simp [Tracker.Leave, leaveList_of_not_mem _ _ h]
  | RoleWorker =>
      refine ⟨by simp [Tracker.Leave, Tracker.memRole, leaveList_mem], ?_⟩
      intro h
      simp only [Tracker.memRole, decide_eq_false_iff_not] at h
      simp [Tracker.Leave, leaveList_of_not_mem _ _ h]

/-- After a recorded join for a real role the id is a member. -/
theorem memRole_applyCall_join (t : Tracker) (role : ComponentRole)
    (id : String) (h : role ≠ .RoleUndefined) :
    (applyCall t ⟨.join, role, id⟩).memRole role id = true := by
  obtain ⟨b, t', hj, _, hm, _⟩ := tryJoin_spec t role id h
  simp [applyCall, hj, hm]

/-- After a recorded leave the id is not a member. -/
theorem memRole_applyCall_leave (t : Tracker) (role : ComponentRole)
    (id : String) :
    (applyCall t ⟨.leave, role, id⟩).memRole role id = false :=
  (leave_spec t role id).1

/-- A recorded call for a different role or id does not change the
membership of the queried pair. -/
theorem memRole_applyCall_other (t : Tracker) (c : TrackerCall)
    (role : ComponentRole) (id : String) (hc : c.role ≠ .RoleUndefined)
    (h : ¬(c.role = role ∧ c.id = id)) :
    (applyCall t c).memRole role id = t.memRole role id := by
  obtain ⟨op, crole, cid⟩ := c
  simp only at hc h
  cases op with
  | join =>
      cases crole with
      | RoleUndefined => exact absurd rfl hc
      | RoleCoordinator =>
          cases role with
          | RoleCoordinator =>
              have hid : cid ≠ id := fun he => h ⟨rfl, he⟩
              simp [applyCall, Tracker.TryJoin, Tracker.memRole,
                tryJoinList_mem, Ne.symm hid]
          | RoleWorker => simp [applyCall, Tracker.TryJoin, Tracker.memRole]
          | RoleUndefined => simp [applyCall, Tracker.TryJoin, Tracker.memRole]
      | RoleWorker =>
          cases role with
          | RoleWorker =>
              have hid : cid ≠ id := fun he => h ⟨rfl, he⟩
              simp [applyCall, Tracker.TryJoin, Tracker.memRole,
                tryJoinList_mem, Ne.symm hid]
          | RoleCoordinator => simp [applyCall, Tracker.TryJoin, Tracker.memRole]
          | RoleUndefined => simp [applyCall, Tracker.TryJoin, Tracker.memRole]
  | leave =>
      cases crole with
      | RoleUndefined => simp [applyCall, Tracker.Leave]
      | RoleCoordinator =>
          cases role with
          | RoleCoordinator =>
              have hid : cid ≠ id := fun he => h ⟨rfl, he⟩
              simp [applyCall, Tracker.Leave, Tracker.memRole, leaveList_mem,
                Ne.symm hid]
          | RoleWorker => simp [applyCall, Tracker.Leave, Tracker.memRole]
          | RoleUndefined => simp [applyCall, Tracker.Leave, Tracker.memRole]
      | RoleWorker =>
          cases role with
          | RoleWorker =>
              have hid : cid ≠ id := fun he => h ⟨rfl, he⟩
              simp [applyCall, Tracker.Leave, Tracker.memRole, leaveList_mem,
                Ne.symm hid]
          | RoleCoordinator => simp [applyCall, Tracker.Leave, Tracker.memRole]
          | RoleUndefined => simp [applyCall, Tracker.Leave, Tracker.memRole]

/-- Appending one recorded call to the history updates the last-call
prediction in the obvious way. -/
theorem lastOpMem_concat (t0 : Tracker) (role : ComponentRole) (id : String)
    (cs : List TrackerCall) (c : TrackerCall) :
    lastOpMem t0 role id (cs ++ [c]) =
      if c.role = role ∧ c.id = id then decide (c.op = .join)
      else lastOpMem t0 role id cs := by
  by_cases h : c.role = role ∧ c.id = id
  · unfold lastOpMem
    rw [List.filter_append]
    simp [h, List.getLast?_concat]
  · unfold lastOpMem
    rw [List.filter_append]
    simp [h]

/-- The membership after a recorded call history is predicted by the last
call touching the queried role and id. -/
theorem applyCalls_lastOpMem (t0 : Tracker) (calls : List TrackerCall)
    (role : ComponentRole) (id : String) (hrole : role ≠ .RoleUndefined)
    (hall : ∀ c ∈ calls, c.role ≠ .RoleUndefined) :
    (applyCalls t0 calls).memRole role id = lastOpMem t0 role id calls := by
  induction calls using List.reverseRecOn with
  | nil => rfl
  | append_singleton cs c ih =>
      have hc : c.role ≠ .RoleUndefined := hall c (by simp)
      have hcs : ∀ x ∈ cs, x.role ≠ .RoleUndefined := fun x hx =>
        hall x (by simp [hx])
      have happ : applyCalls t0 (cs ++ [c]) = applyCall (applyCalls t0 cs) c := by
        simp [applyCalls, List.foldl_append]
      rw [happ, lastOpMem_concat]
      by_cases hm : c.role = role ∧ c.id = id
      · obtain ⟨h1, h2⟩ := hm
        rw [if_pos ⟨h1, h2⟩]
        obtain ⟨op, crole, cid⟩ := c
        simp only at h1 h2
        subst h1
        subst h2
        cases op with
        | join => simp [memRole_applyCall_join _ _ _ hrole]
        | leave => simp [memRole_applyCall_leave]
      · rw [if_neg hm, ← ih hcs, memRole_applyCall_other _ _ _ _ hc hm]

/-- Claim C7: for the two real roles, `TryJoin` reports novelty and leaves
the id a member (a repeated join reports `false` and changes nothing),
`Leave` removes the id and is a no-op when absent, and after any call
sequence the membership of a pair depends only on the last call made for
it. -/
theorem C7_tracker_idempotence :
    (∀ (t : Tracker) (role : ComponentRole) (id : String),
      role ≠ .RoleUndefined →
      ∃ b t', t.TryJoin role id = some (b, t') ∧
        (b = true ↔ t.memRole role id = false) ∧
        t'.memRole role id = true ∧
        t'.TryJoin role id = some (false, t')) ∧
    (∀ (t : Tracker) (role : ComponentRole) (id : String),
      (t.Leave role id).memRole role id = false ∧
      (t.memRole role id = false → t.Leave role id = t)) ∧
    (∀ (t0 : Tracker) (calls : List TrackerCall) (role : ComponentRole)
      (id : String), role ≠ .RoleUndefined →
      (∀ c ∈ calls, c.role ≠ .RoleUndefined) →
      (applyCalls t0 calls).memRole role id = lastOpMem t0 role id calls) :=
  ⟨tryJoin_spec, leave_spec, applyCalls_lastOpMem⟩

theorem C7_tracker_idempotence_witness :
    (∃ b t', Tracker.TryJoin ⟨[], []⟩ .RoleWorker "a" = some (b, t') ∧
      (b = true ↔ Tracker.memRole ⟨[], []⟩ .RoleWorker "a" = false) ∧
      t'.memRole .RoleWorker "a" = true ∧
      t'.TryJoin .RoleWorker "a" = some (false, t')) ∧
    ((Tracker.Leave ⟨[], ["a"]⟩ .RoleWorker "a").memRole .RoleWorker "a" =
      false) ∧
    ((applyCalls ⟨[], []⟩
        [⟨.join, .RoleWorker, "a"⟩, ⟨.join, .RoleWorker, "b"⟩,
         ⟨.leave, .RoleWorker, "a"⟩]).memRole .RoleWorker "a" =
      lastOpMem ⟨[], []⟩ .RoleWorker "a"
        [⟨.join, .RoleWorker, "a"⟩, ⟨.join, .RoleWorker, "b"⟩,
         ⟨.leave, .RoleWorker, "a"⟩]) :=
  ⟨C7_tracker_idempotence.1 ⟨[], []⟩ .RoleWorker "a" (by decide),
   (C7_tracker_idempotence.2.1 ⟨[], ["a"]⟩ .RoleWorker "a").1,
   C7_tracker_idempotence.2.2 ⟨[], []⟩
     [⟨.join, .RoleWorker, "a"⟩, ⟨.join, .RoleWorker, "b"⟩,
      ⟨.leave, .RoleWorker, "a"⟩] .RoleWorker "a" (by decide) (by decide)⟩

/-- A positive free-worker estimate means there is a coordinator and the
in-flight count is strictly below the fair share `W / C`. -/
theorem free_pos (cc cw p : Nat)
    (h : 0 < workerFreeState.Free ⟨cc, cw, p⟩) : 0 < cc ∧ p < cw / cc := by
  unfold workerFreeState.Free at h
  by_cases hcc : cc = 0
  · simp [hcc] at h
  · refine ⟨Nat.pos_of_ne_zero hcc, ?_⟩
    simp only [hcc, if_false] at h
    have h2 : (p : Int) < ((cw / cc : Nat) : Int) := Int.lt_of_sub_pos h
    exact_mod_cast h2

/-- The exit processing does not touch the in-flight multiset. -/
theorem exitLoop_inFlight (s : LoopState) :
    s.exitLoop.inFlight = s.inFlight := by
  unfold LoopState.exitLoop
  split <;> rfl

/-- One loop iteration preserves the fair-share bound on the in-flight count
when the observed tracker counts are the given pair. -/
theorem step_rate_bound (s s' : LoopState) (e : LoopEvent) (cc cw : Nat)
    (hcc : eventCC e = cc) (hcw : eventCW e = cw)
    (hstep : s.step e = some s')
    (hs : s.inFlight.length ≤ max 1 (cw / cc)) :
    s'.inFlight.length ≤ max 1 (cw / cc) := by
  cases hphase : s.phase with
  | exited => simp [LoopState.step, hphase] at hstep
  | running =>
  cases e with
  | cancel ecc ecw =>
      simp only [LoopState.step, hphase] at hstep
      obtain rfl := Option.some.inj hstep
      simpa [exitLoop_inFlight] using hs
  | recvInput ecc ecw =>
      have hcc' : ecc = cc := hcc
      have hcw' : ecw = cw := hcw
      simp only [LoopState.step, hphase] at hstep
      by_cases hfree : 0 < workerFreeState.Free ⟨ecc, ecw, s.inFlight.length⟩
      · rw [if_pos hfree] at hstep
        obtain ⟨hccpos, hlt⟩ := free_pos ecc ecw s.inFlight.length hfree
        rw [hcc', hcw'] at hlt
        cases hinp : s.inp with
        | none => simp [hinp] at hstep
        | some l =>
            cases l with
            | nil =>
                simp only [hinp] at hstep
                split at hstep <;> obtain rfl := Option.some.inj hstep <;>
                  simpa [exitLoop_inFlight] using hs
            | cons x rest =>
                simp only [hinp] at hstep
                obtain rfl := Option.some.inj hstep
                simp only [List.length_append, List.length_cons,
                  List.length_nil]
                exact le_trans (by omega) (le_max_right 1 (cw / cc))
      · rw [if_neg hfree] at hstep
        exact absurd hstep (by simp)
  | recvResubmit ecc ecw =>
      have hcc' : ecc = cc := hcc
      have hcw' : ecw = cw := hcw
      simp only [LoopState.step, hphase] at hstep
      by_cases hfree : 0 < workerFreeState.Free ⟨ecc, ecw, s.inFlight.length⟩
      · rw [if_pos hfree] at hstep
        obtain ⟨hccpos, hlt⟩ := free_pos ecc ecw s.inFlight.length hfree
        rw [hcc', hcw'] at hlt
        cases hq : s.pcResubmit with
        | nil => simp [hq] at hstep
        | cons x rest =>
            simp only [hq] at hstep
            obtain rfl := Option.some.inj hstep
            simp only [List.length_append, List.length_cons, List.length_nil]
            exact le_trans (by omega) (le_max_right 1 (cw / cc))
      · rw [if_neg hfree] at hstep
        exact absurd hstep (by simp)
  | complete ecc ecw input oc =>
      simp only [LoopState.step, hphase] at hstep
      by_cases hin : input ∈ s.inFlight
      case neg =>
        rw [if_neg hin] at hstep
        exact absurd hstep (by simp)
      rw [if_pos hin] at hstep
      have herase : (s.inFlight.erase input).length ≤ s.inFlight.length :=
        (s.inFlight.erase_sublist input).length_le
      cases oc with
      | canceled => simp [performPartialComputation] at hstep
      | failed =>
          simp only [performPartialComputation] at hstep
          rw [if_pos trivial] at hstep
          by_cases hcap : s.pcResubmit.length < resubmitCapacity
          · rw [if_pos hcap] at hstep
            obtain rfl := Option.some.inj hstep
            exact le_trans herase hs
          · rw [if_neg hcap] at hstep
            obtain rfl := Option.some.inj hstep
            rw [exitLoop_inFlight]
            exact le_trans herase hs
      | answered d w =>
          simp only [performPartialComputation] at hstep
          rw [if_neg Bool.false_ne_true] at hstep
          by_cases hd : String.length d = 0
          · rw [if_pos hd] at hstep
            obtain rfl := Option.some.inj hstep
            rw [exitLoop_inFlight]
            exact le_trans herase hs
          · rw [if_neg hd] at hstep
            by_cases hdone : s.inp = none ∧
                (s.inFlight.erase input).length = 0 ∧ s.pcResubmit = []
            · rw [if_pos hdone] at hstep
              obtain rfl := Option.some.inj hstep
              rw [exitLoop_inFlight]
              exact le_trans herase hs
            · rw [if_neg hdone] at hstep
              obtain rfl := Option.some.inj hstep
              exact le_trans herase hs

/-- Running any number of iterations under fixed observed tracker counts
preserves the fair-share bound on the in-flight count. -/
theorem run_rate_bound (evts : List LoopEvent) (s : LoopState) (cc cw : Nat)
    (hc : ∀ e ∈ evts, eventCC e = cc ∧ eventCW e = cw)
    (hs : s.inFlight.length ≤ max 1 (cw / cc)) :
    ∀ s', s.run evts = some s' → s'.inFlight.length ≤ max 1 (cw / cc) := by
  induction evts generalizing s with
  | nil =>
      intro s' h
      obtain rfl := Option.some.inj h
      exact hs
  | cons e es ih =>
      intro s' h
      simp only [LoopState.run] at h
      cases hstep : s.step e with
      | none => rw [hstep] at h; exact absurd h (by simp)
      | some s1 =>
          rw [hstep] at h
          have he := hc e (by simp)
          have h1 : s1.inFlight.length ≤ max 1 (cw / cc) :=
            step_rate_bound s s1 e cc cw he.1 he.2 hstep hs
          exact ih s1 (fun x hx => hc x (by simp [hx])) h1 s' h

/-- Claim C2 fails on the code: with one coordinator and two workers the
loop dispatches two partial computations; after the worker count drops to
one, the next iteration observes counts `(C, W) = (1, 1)` while two
computations are still in flight, exceeding `max 1 (W / C) = 1`. -/
theorem C2_rate_limit_counterexample : ¬ rateLimitClaim := by
  intro h
  have hb := h ["a", "b"]
    [.recvInput 1 2, .recvInput 1 2] (.complete 1 1 "a" (.answered "x" "w"))
    { inp := some [], inFlight := ["a", "b"], pcResubmit := [], acc := [],
      failFast := false, phase := .running, finCount := 0, failMsgCount := 0 }
    (by decide) (by decide)
  exact absurd hb (by decide)

/-- Claim C2 amended: the bound `P ≤ max 1 (W / C)` on the in-flight count
between loop iterations holds provided the tracker counts observed by the
loop stay fixed at `(C, W)` throughout the run. -/
theorem C2_rate_limit (inputs : List BinaryData) (evts : List LoopEvent)
    (cc cw : Nat) (hc : ∀ e ∈ evts, eventCC e = cc ∧ eventCW e = cw)
    (s' : LoopState) (hrun : (LoopState.init inputs).run evts = some s') :
    s'.inFlight.length ≤ max 1 (cw / cc) :=
  run_rate_bound evts (LoopState.init inputs) cc cw hc
    (by simp [LoopState.init]) s' hrun

theorem C2_rate_limit_witness :
    (∀ e ∈ [LoopEvent.recvInput 2 3], eventCC e = 2 ∧ eventCW e = 3) ∧
    (LoopState.inFlight
      ⟨some [], ["a"], [], [], false, .running, 0, 0⟩).length ≤
      max 1 (3 / 2) :=
  ⟨by decide,
   C2_rate_limit ["a"] [LoopEvent.recvInput 2 3] 2 3 (by decide)
     ⟨some [], ["a"], [], [], false, .running, 0, 0⟩ (by decide)⟩

/-- Claim C3: a completion with a resubmit cause (deadline exceeded or
transport failure) carries the original input bytes, which are appended to
the resubmit queue of capacity exactly 100 when it has room; when the queue
already holds 100 inputs, nothing is enqueued and the loop sets fail-fast
and exits. -/
theorem C3_resubmit_queue (s : LoopState) (cc cw : Nat) (input : BinaryData)
    (hrun : s.phase = .running) (hin : input ∈ s.inFlight) :
    performPartialComputation input .failed =
      some { data := input, workerId := "", resubmit := true } ∧
    resubmitCapacity = 100 ∧
    (s.pcResubmit.length < 100 →
      s.step (.complete cc cw input .failed) =
        some { s with inFlight := s.inFlight.erase input,
                      pcResubmit := s.pcResubmit ++ [input] }) ∧
    (s.pcResubmit.length = 100 →
      ∃ s', s.step (.complete cc cw input .failed) = some s' ∧
        s'.failFast = true ∧ s'.phase = .exited ∧
        s'.pcResubmit = s.pcResubmit ∧ s'.finCount = s.finCount) := by
  refine ⟨rfl, rfl, fun hlen => ?_, fun hlen => ?_⟩
  · simp only [LoopState.step, hrun, if_pos hin, performPartialComputation]
    rw [if_pos trivial, if_pos (show s.pcResubmit.length < resubmitCapacity
      from hlen)]
  · refine ⟨LoopState.exitLoop
      { s with inFlight := s.inFlight.erase input, failFast := true },
      ?_, ?_, ?_, ?_, ?_⟩
    · simp only [LoopState.step, hrun, if_pos hin, performPartialComputation]
      rw [if_pos trivial, if_neg (show ¬ s.pcResubmit.length <
        resubmitCapacity by simp [resubmitCapacity, hlen])]
    · simp [LoopState.exitLoop]
    · simp [LoopState.exitLoop]
    · simp [LoopState.exitLoop]
    · simp [LoopState.exitLoop]

theorem C3_resubmit_queue_witness :
    ((LoopState.pcResubmit ⟨some [], ["i"], [], [], false, .running, 0, 0⟩).length < 100 ∧
      LoopState.step ⟨some [], ["i"], [], [], false, .running, 0, 0⟩
        (.complete 1 1 "i" .failed) =
        some ⟨some [], [], ["i"], [], false, .running, 0, 0⟩) ∧
    ((LoopState.pcResubmit
        ⟨some [], ["i"], List.replicate 100 "q", [], false, .running, 0, 0⟩).length = 100 ∧
      ∃ s', LoopState.step
          ⟨some [], ["i"], List.replicate 100 "q", [], false, .running, 0, 0⟩
          (.complete 1 1 "i" .failed) = some s' ∧
        s'.failFast = true ∧ s'.phase = .exited ∧
        s'.pcResubmit = LoopState.pcResubmit
          ⟨some [], ["i"], List.replicate 100 "q", [], false, .running, 0, 0⟩ ∧
        s'.finCount = LoopState.finCount
          ⟨some [], ["i"], List.replicate 100 "q", [], false, .running, 0, 0⟩) := by
  constructor
  · refine ⟨by decide, ?_⟩
    have h := (C3_resubmit_queue ⟨some [], ["i"], [], [], false, .running, 0, 0⟩
      1 1 "i" rfl (by decide)).2.2.1 (by decide)
    simpa using h
  · refine ⟨by decide, ?_⟩
    exact (C3_resubmit_queue
      ⟨some [], ["i"], List.replicate 100 "q", [], false, .running, 0, 0⟩
      1 1 "i" rfl (by decide)).2.2.2 (by decide)

/-- The initial loop state satisfies the loop invariant. -/
theorem loopInv_init (inputs : List BinaryData) :
    LoopInv (LoopState.init inputs) := by
  simp [LoopInv, LoopState.init]

/-- One loop iteration preserves the loop invariant. -/
theorem loopInv_step (s s' : LoopState) (e : LoopEvent)
    (hstep : s.step e = some s') (hinv : LoopInv s) : LoopInv s' := by
  cases hphase : s.phase with
  | exited => simp [LoopState.step, hphase] at hstep
  | running =>
  obtain ⟨hff, hfc, hfm⟩ := hinv.1 hphase
  cases e with
  | cancel ecc ecw =>
      simp only [LoopState.step, hphase] at hstep
      obtain rfl := Option.some.inj hstep
      simp [LoopInv, LoopState.exitLoop, hfc, hfm]
  | recvInput ecc ecw =>
      simp only [LoopState.step, hphase] at hstep
      by_cases hfree : 0 < workerFreeState.Free ⟨ecc, ecw, s.inFlight.length⟩
      · rw [if_pos hfree] at hstep
        cases hinp : s.inp with
        | none => simp [hinp] at hstep
        | some l =>
            cases l with
            | nil =>
                simp only [hinp] at hstep
                by_cases hcond : s.inFlight.length = 0 ∧ s.pcResubmit = []
                · rw [if_pos hcond] at hstep
                  obtain rfl := Option.some.inj hstep
                  have hnil : s.inFlight = [] :=
                    List.length_eq_zero.mp hcond.1
                  simp [LoopInv, LoopState.exitLoop, hff, hfc, hfm, hnil,
                    hcond.2]
                · rw [if_neg hcond] at hstep
                  obtain rfl := Option.some.inj hstep
                  simp [LoopInv, hff, hfc, hfm]
            | cons x rest =>
                simp only [hinp] at hstep
                obtain rfl := Option.some.inj hstep
                simp [LoopInv, hff, hfc, hfm]
      · rw [if_neg hfree] at hstep
        exact absurd hstep (by simp)
  | recvResubmit ecc ecw =>
      simp only [LoopState.step, hphase] at hstep
      by_cases hfree : 0 < workerFreeState.Free ⟨ecc, ecw, s.inFlight.length⟩
      · rw [if_pos hfree] at hstep
        cases hq : s.pcResubmit with
        | nil => simp [hq] at hstep
        | cons x rest =>
            simp only [hq] at hstep
            obtain rfl := Option.some.inj hstep
            simp [LoopInv, hff, hfc, hfm]
      · rw [if_neg hfree] at hstep
        exact absurd hstep (by simp)
  | complete ecc ecw input oc =>
      simp only [LoopState.step, hphase] at hstep
      by_cases hin : input ∈ s.inFlight
      case neg =>
        rw [if_neg hin] at hstep
        exact absurd hstep (by simp)
      rw [if_pos hin] at hstep
      cases oc with
      | canceled => simp [performPartialComputation] at hstep
      | failed =>
          simp only [performPartialComputation] at hstep
          rw [if_pos trivial] at hstep
          by_cases hcap : s.pcResubmit.length < resubmitCapacity
          · rw [if_pos hcap] at hstep
            obtain rfl := Option.some.inj hstep
            simp [LoopInv, hff, hfc, hfm]
          · rw [if_neg hcap] at hstep
            obtain rfl := Option.some.inj hstep
            simp [LoopInv, LoopState.exitLoop, hfc, hfm]
      | answered d w =>
          simp only [performPartialComputation] at hstep
          rw [if_neg Bool.false_ne_true] at hstep
          by_cases hd : String.length d = 0
          · rw [if_pos hd] at hstep
            obtain rfl := Option.some.inj hstep
            simp [LoopInv, LoopState.exitLoop, hfc, hfm]
          · rw [if_neg hd] at hstep
            by_cases hdone : s.inp = none ∧
                (s.inFlight.erase input).length = 0 ∧ s.pcResubmit = []
            · rw [if_pos hdone] at hstep
              obtain rfl := Option.some.inj hstep
              have hnil : s.inFlight.erase input = [] :=
                List.length_eq_zero.mp hdone.2.1
              simp [LoopInv, LoopState.exitLoop, hff, hfc, hfm, hdone.1,
                hdone.2.2, hnil]
            · rw [if_neg hdone] at hstep
              obtain rfl := Option.some.inj hstep
              simp [LoopInv, hff, hfc, hfm]

/-- Running any number of iterations preserves the loop invariant. -/
theorem loopInv_run (evts : List LoopEvent) (s : LoopState)
    (hinv : LoopInv s) :
    ∀ s', s.run evts = some s' → LoopInv s' := by
  induction evts generalizing s with
  | nil =>
      intro s' h
      obtain rfl := Option.some.inj h
      exact hinv
  | cons e es ih =>
      intro s' h
      simp only [LoopState.run] at h
      cases hstep : s.step e with
      | none => rw [hstep] at h; exact absurd h (by simp)
      | some s1 =>
          rw [hstep] at h
          exact ih s1 (loopInv_step s s1 e hstep hinv) s' h

/-- Claim C4: in every run of the loop, `Finalize` is invoked at most once;
it is invoked exactly when the loop has exited without fail-fast, in which
case the input channel is drained, nothing is in flight and the resubmit
queue is empty; a fail-fast exit instead writes exactly one failure message
and never invokes `Finalize`. -/
theorem C4_finalize_exclusive (inputs : List BinaryData)
    (evts : List LoopEvent) (s' : LoopState)
    (hrun : (LoopState.init inputs).run evts = some s') :
    s'.finCount ≤ 1 ∧
    (s'.finCount = 1 ↔ s'.phase = .exited ∧ s'.failFast = false) ∧
    (s'.finCount = 1 →
      s'.inp = none ∧ s'.inFlight = [] ∧ s'.pcResubmit = []) ∧
    (s'.phase = .exited → s'.failFast = true →
      s'.failMsgCount = 1 ∧ s'.finCount = 0) := by
  have hinv := loopInv_run evts (LoopState.init inputs)
    (loopInv_init inputs) s' hrun
  obtain ⟨hr, he⟩ := hinv
  cases hphase : s'.phase with
  | running =>
      obtain ⟨hff, hfc, hfm⟩ := hr hphase
      refine ⟨by omega, ?_, by omega, ?_⟩
      · simp [hfc, hphase]
      · exact fun hex => absurd hex (by simp)
  | exited =>
      obtain ⟨hclean, hfail⟩ := he hphase
      cases hffv : s'.failFast with
      | false =>
          obtain ⟨hfc, hfm, hinp, hifl, hq⟩ := hclean hffv
          refine ⟨by omega, by simp [hfc, hphase, hffv], ?_, ?_⟩
          · exact fun _ => ⟨hinp, hifl, hq⟩
          · exact fun _ hff' => absurd hff' (by simp)
      | true =>
          obtain ⟨hfc, hfm⟩ := hfail hffv
          refine ⟨by omega, by simp [hfc, hphase, hffv], by omega,
            fun _ _ => ⟨hfm, hfc⟩⟩

theorem C4_finalize_exclusive_witness :
    LoopState.finCount ⟨none, [], [], [], false, .exited, 1, 0⟩ ≤ 1 ∧
    (LoopState.finCount ⟨none, [], [], [], false, .exited, 1, 0⟩ = 1 ↔
      LoopState.phase ⟨none, [], [], [], false, .exited, 1, 0⟩ = .exited ∧
      LoopState.failFast ⟨none, [], [], [], false, .exited, 1, 0⟩ = false) ∧
    (LoopState.finCount ⟨none, [], [], [], false, .exited, 1, 0⟩ = 1 →
      LoopState.inp ⟨none, [], [], [], false, .exited, 1, 0⟩ = none ∧
      LoopState.inFlight ⟨none, [], [], [], false, .exited, 1, 0⟩ = [] ∧
      LoopState.pcResubmit ⟨none, [], [], [], false, .exited, 1, 0⟩ = []) ∧
    (LoopState.phase ⟨none, [], [], [], false, .exited, 1, 0⟩ = .exited →
      LoopState.failFast ⟨none, [], [], [], false, .exited, 1, 0⟩ = true →
      LoopState.failMsgCount ⟨none, [], [], [], false, .exited, 1, 0⟩ = 1 ∧
      LoopState.finCount ⟨none, [], [], [], false, .exited, 1, 0⟩ = 0) :=
  C4_finalize_exclusive [] [.recvInput 1 1]
    ⟨none, [], [], [], false, .exited, 1, 0⟩ (by decide)

/-- With enough fuel, the little-endian digit list of `n` evaluates back to
`n`. -/
theorem valOf_decDigitsRev (fuel : Nat) :
    ∀ n : Nat, n ≤ fuel → valOfDigitsRev (decDigitsRev fuel n) = n := by
  induction fuel with
  | zero =>
      intro n hn
      obtain rfl := Nat.le_zero.mp hn
      rfl
  | succ fuel ih =>
      intro n hn
      by_cases hz : n = 0
      · simp [decDigitsRev, hz, valOfDigitsRev]
      · have hdiv : n / 10 ≤ fuel := by
          have : n / 10 < n := Nat.div_lt_self (Nat.pos_of_ne_zero hz)
            (by norm_num)
          omega
        simp only [decDigitsRev, hz, if_false, valOfDigitsRev]
        rw [ih (n / 10) hdiv]
        exact Nat.mod_add_div n 10

/-- All entries of a little-endian decimal digit list are digits. -/
theorem decDigitsRev_lt_ten (fuel : Nat) :
    ∀ n : Nat, ∀ d ∈ decDigitsRev fuel n, d < 10 := by
  induction fuel with
  | zero => intro n d hd; simp [decDigitsRev] at hd
  | succ fuel ih =>
      intro n d hd
      by_cases hz : n = 0
      · simp [decDigitsRev, hz] at hd
      · simp only [decDigitsRev, hz, if_false, List.mem_cons] at hd
        rcases hd with rfl | hd
        · exact Nat.mod_lt n (by norm_num)
        · exact ih (n / 10) d hd

/-- Reading back a digit character yields the digit. -/
theorem charDigit_digitChar (d : Nat) (h : d < 10) :
    charDigit (digitChar d) = some d := by
  interval_cases d <;> decide

/-- The parse loop consumes a digit-character list as a base-10 fold. -/
theorem parseUintCore_map (bs : List Nat) (h : ∀ d ∈ bs, d < 10) :
    ∀ acc : Nat, parseUintCore (bs.map digitChar) acc =
      some (bs.foldl (fun a d => a * 10 + d) acc) := by
  induction bs with
  | nil => intro acc; rfl
  | cons d ds ih =>
      intro acc
      have hd : d < 10 := h d (by simp)
      simp only [List.map_cons, parseUintCore, charDigit_digitChar d hd,
        List.foldl_cons]
      exact ih (fun x hx => h x (by simp [hx])) (acc * 10 + d)

/-- The base-10 fold over the reversed little-endian digits recovers the
positional value. -/
theorem foldl_reverse_valOf (ds : List Nat) :
    ∀ acc : Nat, ds.reverse.foldl (fun a d => a * 10 + d) acc =
      acc * 10 ^ ds.length + valOfDigitsRev ds := by
  induction ds with
  | nil => intro acc; simp [valOfDigitsRev]
  | cons d ds ih =>
      intro acc
      simp only [List.reverse_cons, List.foldl_append, List.foldl_cons,
        List.foldl_nil, ih acc, valOfDigitsRev, List.length_cons]
      ring

/-- A nonzero number has a nonempty digit list. -/
theorem decDigitsRev_ne_nil (n : Nat) (h : n ≠ 0) :
    decDigitsRev n n ≠ [] := by
  cases n with
  | zero => exact absurd rfl h
  | succ m => simp [decDigitsRev]

/-- Go's decimal format/parse roundtrip: parsing the formatted decimal of any
64-bit value yields the value back. -/
theorem parseUint64_formatUint (n : Nat) (h : n < 2 ^ 64) :
    parseUint64 (formatUint n) = some n := by
  by_cases hz : n = 0
  · subst hz; decide
  · have hdig : ∀ d ∈ (decDigitsRev n n).reverse, d < 10 := fun d hd =>
      decDigitsRev_lt_ten n n d (List.mem_reverse.mp hd)
    have hdata : (formatUint n).data =
        ((decDigitsRev n n).reverse.map digitChar) := by
      simp [formatUint, hz, List.asString]
    unfold parseUint64
    rw [hdata]
    have hne : (decDigitsRev n n).reverse.map digitChar ≠ [] := by
      simp [decDigitsRev_ne_nil n hz]
    rw [if_neg hne]
    rw [parseUintCore_map _ hdig 0, foldl_reverse_valOf]
    simp only [Nat.zero_mul, Nat.zero_add]
    rw [valOf_decDigitsRev n n le_rfl]
    show (if n < 2 ^ 64 then some n else none) = some n
    rw [if_pos h]

/-- The `int64` conversion is exact below `2^63`. -/
theorem int64ofUint64_small (k : Nat) (h : k < 2 ^ 63) :
    int64ofUint64 k = (k : Int) := by
  unfold int64ofUint64
  rw [if_pos h]

/-- Folding the fac accumulator over formatted values below `2^63` multiplies
the running product by each value. -/
theorem foldl_facAccumulate (l : List Nat) (h : ∀ k ∈ l, k < 2 ^ 63) :
    ∀ a : Int, List.foldl FacComputation.Accumulate a (l.map formatUint) =
      a * ((l.prod : Nat) : Int) := by
  induction l with
  | nil => intro a; simp
  | cons k ks ih =>
      intro a
      have hk : k < 2 ^ 63 := h k (by simp)
      have hacc : FacComputation.Accumulate a (formatUint k) = a * (k : Int) := by
        unfold FacComputation.Accumulate
        rw [parseUint64_formatUint k (lt_trans hk (by norm_num))]
        show a * int64ofUint64 k = a * (k : Int)
        rw [int64ofUint64_small k hk]
      simp only [List.map_cons, List.foldl_cons, hacc]
      rw [ih (fun x hx => h x (by simp [hx])) (a * (k : Int))]
      rw [List.prod_cons]
      push_cast
      ring

/-- The product of 2, …, n is n factorial. -/
theorem range'_prod_factorial : ∀ n : Nat,
    (List.range' 2 (n - 1)).prod = n.factorial := by
  intro n
  induction n with
  | zero => rfl
  | succ m ih =>
      cases m with
      | zero => rfl
      | succ k =>
          have h1 : (k + 2) - 1 = ((k + 1) - 1) + 1 := by omega
          rw [h1, List.range'_concat, List.prod_append]
          simp only [List.prod_cons, List.prod_nil]
          rw [ih]
          have h2 : 2 + 1 * ((k + 1) - 1) = k + 2 := by omega
          rw [h2, Nat.factorial_succ (k + 1)]
          ring

/-- Every emitted fac partition value is at most n. -/
theorem mem_range'_le (n k : Nat) (hk : k ∈ List.range' 2 (n - 1)) :
    k ≤ n := by
  rw [List.mem_range'_1] at hk
  omega

/-- Claim C8 fails on the code: `Partition` rejects the non-negative decimal
integer `2^64` = 18446744073709551616 because `strconv.ParseUint` is bounded
to 64 bits, instead of succeeding as claimed. -/
theorem C8_fac_counterexample :
    ¬ ((FacComputation.Partition ["18446744073709551616"]).isSome = true) := by
  decide

/-- Claim C8 amended: for the fac computation with `n < 2^63` (so parsing is
within the 64-bit range and the accumulator's `int64` conversion is exact),
`Partition` on `[n]` succeeds and emits exactly the decimal strings of
2, …, n in order, any other argument list errors, `PartialCompute` is the
identity, and folding `Accumulate` from 1 over all partial outputs yields
n factorial. -/
theorem C8_fac (n : Nat) (h : n < 2 ^ 63) :
    FacComputation.Partition [formatUint n] =
      some ((List.range' 2 (n - 1)).map formatUint) ∧
    (∀ x : BinaryData, FacComputation.PartialCompute x = x) ∧
    List.foldl FacComputation.Accumulate 1
      (((List.range' 2 (n - 1)).map formatUint).map
        FacComputation.PartialCompute) = (n.factorial : Int) ∧
    FacComputation.Partition [] = none ∧
    (∀ (a b : String) (rest : List String),
      FacComputation.Partition (a :: b :: rest) = none) ∧
    (∀ s : String, parseUint64 s = none →
      FacComputation.Partition [s] = none) := by
  refine ⟨?_, fun x => rfl, ?_, rfl, fun a b rest => rfl, fun s hs => ?_⟩
  · show (match parseUint64 (formatUint n) with
        | none => none
        | some n => some ((List.range' 2 (n - 1)).map formatUint)) =
      some ((List.range' 2 (n - 1)).map formatUint)
    rw [parseUint64_formatUint n (lt_trans h (by norm_num))]
  · have hmap : ((List.range' 2 (n - 1)).map formatUint).map
        FacComputation.PartialCompute = (List.range' 2 (n - 1)).map formatUint := by
      simp [FacComputation.PartialCompute]
    rw [hmap]
    rw [foldl_facAccumulate (List.range' 2 (n - 1))
      (fun k hk => lt_of_le_of_lt (mem_range'_le n k hk) h) 1]
    rw [range'_prod_factorial n]
    ring
  · simp [FacComputation.Partition, hs]

theorem C8_fac_witness :
    ((5 : Nat) < 2 ^ 63 ∧
      FacComputation.Partition [formatUint 5] =
        some ((List.range' 2 (5 - 1)).map formatUint) ∧
      List.foldl FacComputation.Accumulate 1
        (((List.range' 2 (5 - 1)).map formatUint).map
          FacComputation.PartialCompute) = ((5 : Nat).factorial : Int)) ∧
    (FacComputation.Partition ["5"] = some ["2", "3", "4", "5"] ∧
      List.foldl FacComputation.Accumulate 1 ["2", "3", "4", "5"] = 120 ∧
      FacComputation.Partition ["0"] = some [] ∧
      FacComputation.Partition ["x"] = none) :=
  ⟨⟨by norm_num, (C8_fac 5 (by norm_num)).1, (C8_fac 5 (by norm_num)).2.2.1⟩,
   by decide, by decide, by decide, by decide⟩
